import Mathlib

/-!
Verification development for the LLM-SDN intent-verification system
(`working_llm_system.py`).  Strings are modelled as `List Char`; the
functions below are shallow embeddings of the Python functions, translated
line by line from the source.
-/

/-- ASCII double-quote character (`"` in Python source). -/
def dquote : Char := Char.ofNat 34

/-- ASCII single-quote character. -/
def squote : Char := Char.ofNat 39

/-- ASCII backtick character, the code-fence marker unit. -/
def tick : Char := Char.ofNat 96

/-- Model of Python `needle in hay` prefix step: `needle` is a prefix of `hay`. -/
def isPrefixL : List Char → List Char → Bool
  | [], _ => true
  | _ :: _, [] => false
  | a :: as, b :: bs => a == b && isPrefixL as bs

/-- Model of Python substring containment `needle in hay`. -/
def hasSub (needle : List Char) : List Char → Bool
  | [] => isPrefixL needle []
  | c :: rest => isPrefixL needle (c :: rest) || hasSub needle rest

/-- The phrase `test_connectivity` looks for first (line 105). -/
def zeroLoss : List Char := "0% packet loss".toList

/-- The phrase `test_connectivity` looks for second (line 107). -/
def hundredLoss : List Char := "100% packet loss".toList

/-- Embedding of `test_connectivity` (lines 99-111), as a function of the
captured `ping` output string.  Returns the `(loss, status)` pair. -/
def test_connectivity (result : List Char) : Nat × String :=
  if hasSub zeroLoss result then (0, "REACHABLE")
  else if hasSub hundredLoss result then (100, "BLOCKED")
  else (50, "PARTIAL")

/-- Characters removed by Python `str.strip()` (ASCII whitespace:
space, tab, newline, carriage return, vertical tab, form feed). -/
def pyIsSpace (c : Char) : Bool :=
  c == Char.ofNat 32 || c == Char.ofNat 9 || c == Char.ofNat 10 ||
  c == Char.ofNat 13 || c == Char.ofNat 11 || c == Char.ofNat 12

/-- Drop leading whitespace characters, the one-sided half of `str.strip()`. -/
def dropLeadingSpace : List Char → List Char
  | [] => []
  | c :: rest => if pyIsSpace c then dropLeadingSpace rest else c :: rest

/-- Model of Python `str.strip()`: drop trailing whitespace (via reverse),
then leading whitespace. -/
def pyStrip (l : List Char) : List Char :=
  dropLeadingSpace (dropLeadingSpace l.reverse).reverse

/-- Helper for splitting: prepend a character to the first piece. -/
def consHead (a : Char) : List (List Char) → List (List Char)
  | [] => [[a]]
  | p :: ps => (a :: p) :: ps

/-- Model of Python `command.split("```")` (line 81): split on each
left-most non-overlapping occurrence of three backticks. -/
def splitTicks : List Char → List (List Char)
  | a :: b :: c :: rest =>
    if a = tick ∧ b = tick ∧ c = tick then [] :: splitTicks rest
    else consHead a (splitTicks (b :: c :: rest))
  | a :: rest => consHead a (splitTicks rest)
  | [] => [[]]

/-- Model of Python `command.replace("bash", "")` (line 85): delete every
left-most occurrence of the four characters `bash`. -/
def removeBash : List Char → List Char
  | 'b' :: 'a' :: 's' :: 'h' :: rest => removeBash rest
  | c :: rest => c :: removeBash rest
  | [] => []

/-- Model of Python `command.replace("sh", "")` (line 85): delete every
left-most occurrence of the two characters `sh`. -/
def removeSh : List Char → List Char
  | 's' :: 'h' :: rest => removeSh rest
  | c :: rest => c :: removeSh rest
  | [] => []

/-- Model of Python `command.replace('"', "")` (line 89): delete every
double-quote character. -/
def removeDQ : List Char → List Char
  | [] => []
  | c :: rest => if c = dquote then removeDQ rest else c :: removeDQ rest

/-- Model of Python `command.replace("'", "")` (line 89): delete every
single-quote character. -/
def removeSQ : List Char → List Char
  | [] => []
  | c :: rest => if c = squote then removeSQ rest else c :: removeSQ rest

/-- The code-fence marker, three backticks. -/
def fence : List Char := [tick, tick, tick]

/-- Embedding of the sanitization stage of `generate_network_command`
(lines 77-92): strip the raw completion, cut out the first fenced part and
delete `bash` / `sh` tokens when a fence is present, then delete all quote
characters and strip again. -/
def sanitize (raw : List Char) : List Char :=
  let command := pyStrip raw
  let command1 :=
    if hasSub fence command then
      let parts := splitTicks command
      let command2 := if 2 ≤ parts.length then parts.getD 1 [] else command
      pyStrip (removeSh (removeBash command2))
    else command
  pyStrip (removeSQ (removeDQ command1))

/-- Quote characters, for stating quote-freeness of sanitized output. -/
def pyIsQuote (c : Char) : Bool := c == dquote || c == squote

/-- A list of characters has no leading and no trailing whitespace. -/
def noEdgeSpace (l : List Char) : Bool :=
  !pyIsSpace (l.headD 'x') && !pyIsSpace (l.getLastD 'x')

/-- A list of characters has no leading and no trailing quote character. -/
def noEdgeQuote (l : List Char) : Bool :=
  !pyIsQuote (l.headD 'x') && !pyIsQuote (l.getLastD 'x')

/-- Model of Python `intent.lower()` (line 156) on ASCII intent text. -/
def lowerL (l : List Char) : List Char := l.map Char.toLower

/-- The block keyword searched for in the lowered intent text (line 156). -/
def blockKw : List Char := "block".toList

/-- Embedding of the validation step of `process_intent` (lines 156-159):
for block intents success means 100% measured loss, otherwise 0%. -/
def classifyOK (intent : List Char) (loss_after : Nat) : Bool :=
  if hasSub blockKw (lowerL intent) then loss_after == 100 else loss_after == 0

/-- Embedding of the feedback string built on a failed attempt
(lines 176-179). -/
def feedbackMsg (src dst : String) (loss_after : Nat) : List Char :=
  ("Expected traffic to be fully blocked between " ++ src ++ " and " ++ dst ++
    ", but after applying the rule, measured " ++ toString loss_after ++
    "% packet loss.").toList

/-- Per-attempt external outcomes: the LLM completion (`none` models the
`except` path of `generate_network_command`, lines 94-96, i.e. any
transport/auth/quota failure) and the two captured `ping` outputs. -/
structure AttemptEnv where
  llmOutput : Option (List Char)
  baselinePing : List Char
  verifyPing : List Char
deriving DecidableEq

/-- The dictionary returned by `process_intent` (lines 170 and 186). -/
structure IntentResult where
  success : Bool
  command : Option (List Char)
  attempts : Nat
deriving DecidableEq

/-- Record of one loop iteration of `process_intent`, for stating temporal
properties.  `deployed = false` marks a skipped attempt (no usable command:
nothing probed, nothing deployed).  `rulesAtBaseline` is the source host's
iptables rule list at the start of the iteration (hence at the baseline
probe when one runs). -/
structure AttemptLog where
  attempt : Nat
  command : Option (List Char)
  deployed : Bool
  rulesAtBaseline : List (List Char)
  lossBefore : Nat
  lossAfter : Nat
  success : Bool
  feedbackIn : Option (List Char)
  feedbackOut : Option (List Char)
deriving DecidableEq

/-- Full outcome of a `process_intent` run: the per-attempt trace, the
returned result, and the final iptables rule list on the source host. -/
structure RunOut where
  trace : List AttemptLog
  result : IntentResult
  rulesAfter : List (List Char)
deriving DecidableEq

/-- Embedding of the attempt loop of `process_intent` (lines 123-186).
`rem` counts the remaining iterations of `for attempt in range(1,
max_attempts + 1)`; `attempt` is the 1-based attempt number; `fb` is the
`feedback` variable; `rules` is the iptables rule list of the source host
(a deployed command is appended, `iptables -F` empties it).  The LLM call
and the two pings are read from `env attempt`. -/
def loopGo (env : Nat → AttemptEnv) (intent : List Char) (src dst : String)
    (maxA : Nat) :
    Nat → Nat → Option (List Char) → List (List Char) → RunOut
  | 0, _, _, rules => ⟨[], ⟨false, none, maxA⟩, rules⟩
  | rem + 1, attempt, fb, rules =>
    let e := env attempt
    match e.llmOutput.map sanitize with
    | none =>
      let rest := loopGo env intent src dst maxA rem (attempt + 1) fb rules
      ⟨⟨attempt, none, false, rules, 0, 0, false, fb, fb⟩ :: rest.trace,
       rest.result, rest.rulesAfter⟩
    | some cmd =>
      if cmd = [] then
        let rest := loopGo env intent src dst maxA rem (attempt + 1) fb rules
        ⟨⟨attempt, none, false, rules, 0, 0, false, fb, fb⟩ :: rest.trace,
         rest.result, rest.rulesAfter⟩
      else
        let loss_before := (test_connectivity e.baselinePing).1
        let rules1 := rules ++ [cmd]
        let loss_after := (test_connectivity e.verifyPing).1
        if classifyOK intent loss_after then
          ⟨[⟨attempt, some cmd, true, rules, loss_before, loss_after, true, fb, fb⟩],
           ⟨true, some cmd, attempt⟩, rules1⟩
        else
          let fb2 := some (feedbackMsg src dst loss_after)
          let rest := loopGo env intent src dst maxA rem (attempt + 1) fb2 []
          ⟨⟨attempt, some cmd, true, rules, loss_before, loss_after, false, fb, fb2⟩ :: rest.trace,
           rest.result, rest.rulesAfter⟩

/-- Embedding of `process_intent` (lines 114-186): run the attempt loop
from attempt 1 with empty feedback.  `rules0` is the rule list already
installed on the source host when the call starts (`main` flushes it
between tests).  The source default for `max_attempts` is 3. -/
def process_intent (env : Nat → AttemptEnv) (intent : List Char)
    (src dst : String) (maxA : Nat) (rules0 : List (List Char)) : RunOut :=
  loopGo env intent src dst maxA maxA 1 none rules0

/-- The per-attempt success predicate, read off the environment: the
attempt yields a usable command and the post-deployment classification
satisfies the polarity test of lines 156-159. -/
def attemptOK (intent : List Char) (e : AttemptEnv) : Bool :=
  match e.llmOutput.map sanitize with
  | none => false
  | some cmd =>
    if cmd = [] then false
    else classifyOK intent (test_connectivity e.verifyPing).1

/-- Embedding of the success-rate computation of `main` (lines 250-251):
`success_count` counts successful results. -/
def success_count (results : List IntentResult) : Nat :=
  (results.filter (fun r => r.success)).length

/-- Embedding of `success_rate` (line 251): percentage of successful
results, `0.0` for an empty batch. -/
def success_rate (results : List IntentResult) : ℚ :=
  if results ≠ [] then
    ((success_count results : ℚ) / (results.length : ℚ)) * 100
  else 0

/-- Concrete environment where every LLM call fails (the `except` path). -/
def wEnvNone : Nat → AttemptEnv := fun _ => ⟨none, [], []⟩

/-- The block intent of the main experiment case (line 218). -/
def wIntentBlock : List Char := "Block traffic from h1 to h2".toList

/-- A concrete clean iptables command produced by the generator. -/
def wCmd : List Char := "iptables -A OUTPUT -d 10.0.0.2 -j DROP".toList

/-- Concrete environment where every attempt generates `wCmd`, the baseline
ping reports full reachability and the verification ping reports no
recognizable loss phrase (classified Partial, 50%). -/
def wEnvBlock : Nat → AttemptEnv :=
  fun _ => ⟨some wCmd, "3 packets transmitted, 3 received, 0% packet loss".toList,
    "3 packets transmitted, 0 received".toList⟩

/-- The attempt-1 log entry of a `wEnvBlock` run on the block intent. -/
def wLogBlock : AttemptLog :=
  ⟨1, some wCmd, true, [], 0, 50, false, none, some (feedbackMsg "h1" "h2" 50)⟩

/-- The attempt-2 log entry of a `wEnvBlock` run on the block intent. -/
def wLogBlock2 : AttemptLog :=
  ⟨2, some wCmd, true, [], 0, 50, false, some (feedbackMsg "h1" "h2" 50),
    some (feedbackMsg "h1" "h2" 50)⟩

theorem isPrefixL_nil_right : ∀ n : List Char, isPrefixL n [] = true → n = [] := by
  intro n h
  cases n with
  | nil => rfl
  | cons a as => simp [isPrefixL] at h

theorem hasSub_of_isPrefixL (n l : List Char) (h : isPrefixL n l = true) :
    hasSub n l = true := by
  cases l with
  | nil =>
    have := isPrefixL_nil_right n h
    subst this
    rfl
  | cons c rest => simp [hasSub, h]

theorem hasSub_of_cons (x : Char) (xs : List Char) :
    ∀ l : List Char, hasSub (x :: xs) l = true → hasSub xs l = true := by
  intro l
  induction l with
  | nil => intro h; simp [hasSub, isPrefixL] at h
  | cons c rest ih =>
    intro h
    simp only [hasSub, Bool.or_eq_true] at h ⊢
    rcases h with h | h
    · simp only [isPrefixL, Bool.and_eq_true] at h
      right
      exact hasSub_of_isPrefixL xs rest h.2
    · right
      exact ih h

theorem hasSub_zero_of_hundred (l : List Char) (h : hasSub hundredLoss l = true) :
    hasSub zeroLoss l = true := by
  have h1 : hundredLoss = '1' :: '0' :: zeroLoss := by rfl
  rw [h1] at h
  exact hasSub_of_cons _ _ _ (hasSub_of_cons _ _ _ h)


theorem mem_dropLeadingSpace (x : Char) : ∀ l : List Char, x ∈ dropLeadingSpace l → x ∈ l := by
  intro l
  induction l with
  | nil => intro h; simp [dropLeadingSpace] at h
  | cons c rest ih =>
    intro h
    simp only [dropLeadingSpace] at h
    cases hc : pyIsSpace c with
    | true => rw [hc] at h; simp at h; exact List.mem_cons_of_mem _ (ih h)
    | false => rw [hc] at h; simpa using h

theorem mem_pyStrip (x : Char) (l : List Char) (h : x ∈ pyStrip l) : x ∈ l := by
  unfold pyStrip at h
  have h1 := mem_dropLeadingSpace x _ h
  rw [List.mem_reverse] at h1
  have h2 := mem_dropLeadingSpace x _ h1
  rwa [List.mem_reverse] at h2

theorem mem_removeDQ (x : Char) : ∀ l : List Char, x ∈ removeDQ l → x ∈ l ∧ x ≠ dquote := by
  intro l
  induction l with
  | nil => intro h; simp [removeDQ] at h
  | cons c rest ih =>
    intro h
    simp only [removeDQ] at h
    by_cases hc : c = dquote
    · rw [if_pos hc] at h
      have := ih h
      exact ⟨List.mem_cons_of_mem _ this.1, this.2⟩
    · rw [if_neg hc] at h
      rcases List.mem_cons.mp h with h | h
      · subst h; exact ⟨List.mem_cons_self _ _, hc⟩
      · have := ih h
        exact ⟨List.mem_cons_of_mem _ this.1, this.2⟩

theorem mem_removeSQ (x : Char) : ∀ l : List Char, x ∈ removeSQ l → x ∈ l ∧ x ≠ squote := by
  intro l
  induction l with
  | nil => intro h; simp [removeSQ] at h
  | cons c rest ih =>
    intro h
    simp only [removeSQ] at h
    by_cases hc : c = squote
    · rw [if_pos hc] at h
      have := ih h
      exact ⟨List.mem_cons_of_mem _ this.1, this.2⟩
    · rw [if_neg hc] at h
      rcases List.mem_cons.mp h with h | h
      · subst h; exact ⟨List.mem_cons_self _ _, hc⟩
      · have := ih h
        exact ⟨List.mem_cons_of_mem _ this.1, this.2⟩

theorem sanitize_quote_free (raw : List Char) (x : Char) (h : x ∈ sanitize raw) :
    pyIsQuote x = false := by
  unfold sanitize at h
  have h1 := mem_pyStrip x _ h
  have h2 := mem_removeSQ x _ h1
  have h3 := mem_removeDQ x _ h2.1
  simp only [pyIsQuote, Bool.or_eq_false_iff, beq_eq_false_iff_ne, ne_eq]
  exact ⟨h3.2, h2.2⟩

theorem headD_dropLeadingSpace (l : List Char) :
    pyIsSpace ((dropLeadingSpace l).headD 'x') = false := by
  induction l with
  | nil => decide
  | cons c rest ih =>
    simp only [dropLeadingSpace]
    cases hc : pyIsSpace c with
    | true => simpa [hc] using ih
    | false => simpa [hc]

theorem head?_dropLeadingSpace (l : List Char) (c : Char)
    (h : (dropLeadingSpace l).head? = some c) : pyIsSpace c = false := by
  have := headD_dropLeadingSpace l
  rw [List.headD_eq_head? _ 'x', h] at this
  simpa using this

theorem getLast?_dropLeadingSpace : ∀ l : List Char, dropLeadingSpace l ≠ [] →
    (dropLeadingSpace l).getLast? = l.getLast? := by
  intro l
  induction l with
  | nil => intro h; simp [dropLeadingSpace] at h
  | cons c rest ih =>
    intro h
    simp only [dropLeadingSpace] at h ⊢
    by_cases hc : pyIsSpace c = true
    · rw [if_pos hc] at h ⊢
      rw [ih h]
      cases hr : rest with
      | nil => subst hr; simp [dropLeadingSpace] at h
      | cons b bs => subst hr; rw [List.getLast?_cons_cons]
    · rw [if_neg hc]

theorem pyStrip_noEdgeSpace (l : List Char) : noEdgeSpace (pyStrip l) = true := by
  have hhead : pyIsSpace ((pyStrip l).headD 'x') = false := headD_dropLeadingSpace _
  have hlast : pyIsSpace ((pyStrip l).getLastD 'x') = false := by
    by_cases hR : pyStrip l = []
    · rw [hR]; decide
    · rw [List.getLastD_eq_getLast? 'x' (pyStrip l)]
      unfold pyStrip at hR ⊢
      rw [getLast?_dropLeadingSpace _ hR, List.getLast?_reverse]
      cases hh : (dropLeadingSpace l.reverse).head? with
      | none =>
        exfalso
        apply hR
        have hnil : dropLeadingSpace l.reverse = [] := by
          cases hd : dropLeadingSpace l.reverse with
          | nil => rfl
          | cons a as => rw [hd] at hh; simp at hh
        rw [hnil]
        rfl
      | some c =>
        simpa using head?_dropLeadingSpace l.reverse c hh
  unfold noEdgeSpace
  rw [hhead, hlast]
  rfl

theorem getLastD_mem (l : List Char) (d : Char) (h : l ≠ []) : l.getLastD d ∈ l := by
  rw [List.getLastD_eq_getLast? d l, List.getLast?_eq_getLast_of_ne_nil h]
  simpa using List.getLast_mem h

theorem quoteFree_noEdgeQuote (l : List Char) (h : ∀ x ∈ l, pyIsQuote x = false) :
    noEdgeQuote l = true := by
  cases hl : l with
  | nil => decide
  | cons c rest =>
    subst hl
    unfold noEdgeQuote
    have h1 : pyIsQuote ((c :: rest).headD 'x') = false := h c (by simp)
    have h2 : pyIsQuote ((c :: rest).getLastD 'x') = false :=
      h _ (getLastD_mem (c :: rest) 'x' (by simp))
    rw [h1, h2]
    rfl

theorem sanitize_noEdgeQuote (raw : List Char) : noEdgeQuote (sanitize raw) = true :=
  quoteFree_noEdgeQuote _ (fun x hx => sanitize_quote_free raw x hx)

theorem sanitize_all_quote_free (raw : List Char) :
    (sanitize raw).all (fun c => !pyIsQuote c) = true := by
  rw [List.all_eq_true]
  intro x hx
  rw [sanitize_quote_free raw x hx]
  rfl

theorem sanitize_noEdgeSpace (raw : List Char) : noEdgeSpace (sanitize raw) = true := by
  unfold sanitize
  exact pyStrip_noEdgeSpace _

theorem loopGo_none (env : Nat → AttemptEnv) (intent : List Char) (src dst : String)
    (maxA rem attempt : Nat) (fb : Option (List Char)) (rules : List (List Char))
    (h : (env attempt).llmOutput.map sanitize = none) :
    loopGo env intent src dst maxA (rem + 1) attempt fb rules =
      ⟨⟨attempt, none, false, rules, 0, 0, false, fb, fb⟩ ::
        (loopGo env intent src dst maxA rem (attempt + 1) fb rules).trace,
       (loopGo env intent src dst maxA rem (attempt + 1) fb rules).result,
       (loopGo env intent src dst maxA rem (attempt + 1) fb rules).rulesAfter⟩ := by
  simp only [loopGo]
  rw [h]

theorem loopGo_empty (env : Nat → AttemptEnv) (intent : List Char) (src dst : String)
    (maxA rem attempt : Nat) (fb : Option (List Char)) (rules : List (List Char))
    (h : (env attempt).llmOutput.map sanitize = some []) :
    loopGo env intent src dst maxA (rem + 1) attempt fb rules =
      ⟨⟨attempt, none, false, rules, 0, 0, false, fb, fb⟩ ::
        (loopGo env intent src dst maxA rem (attempt + 1) fb rules).trace,
       (loopGo env intent src dst maxA rem (attempt + 1) fb rules).result,
       (loopGo env intent src dst maxA rem (attempt + 1) fb rules).rulesAfter⟩ := by
  simp only [loopGo]
  rw [h]
  rfl

theorem loopGo_deploy_success (env : Nat → AttemptEnv) (intent : List Char)
    (src dst : String) (maxA rem attempt : Nat) (fb : Option (List Char))
    (rules : List (List Char)) (cmd : List Char)
    (h1 : (env attempt).llmOutput.map sanitize = some cmd) (h2 : cmd ≠ [])
    (h3 : classifyOK intent (test_connectivity (env attempt).verifyPing).1 = true) :
    loopGo env intent src dst maxA (rem + 1) attempt fb rules =
      ⟨[⟨attempt, some cmd, true, rules, (test_connectivity (env attempt).baselinePing).1,
          (test_connectivity (env attempt).verifyPing).1, true, fb, fb⟩],
       ⟨true, some cmd, attempt⟩, rules ++ [cmd]⟩ := by
  simp only [loopGo]
  rw [h1]
  simp [h2, h3]

theorem loopGo_deploy_fail (env : Nat → AttemptEnv) (intent : List Char)
    (src dst : String) (maxA rem attempt : Nat) (fb : Option (List Char))
    (rules : List (List Char)) (cmd : List Char)
    (h1 : (env attempt).llmOutput.map sanitize = some cmd) (h2 : cmd ≠ [])
    (h3 : classifyOK intent (test_connectivity (env attempt).verifyPing).1 = false) :
    loopGo env intent src dst maxA (rem + 1) attempt fb rules =
      ⟨⟨attempt, some cmd, true, rules, (test_connectivity (env attempt).baselinePing).1,
          (test_connectivity (env attempt).verifyPing).1, false, fb,
          some (feedbackMsg src dst (test_connectivity (env attempt).verifyPing).1)⟩ ::
        (loopGo env intent src dst maxA rem (attempt + 1)
          (some (feedbackMsg src dst (test_connectivity (env attempt).verifyPing).1)) []).trace,
       (loopGo env intent src dst maxA rem (attempt + 1)
          (some (feedbackMsg src dst (test_connectivity (env attempt).verifyPing).1)) []).result,
       (loopGo env intent src dst maxA rem (attempt + 1)
          (some (feedbackMsg src dst (test_connectivity (env attempt).verifyPing).1)) []).rulesAfter⟩ := by
  simp only [loopGo]
  rw [h1]
  simp [h2, h3]

theorem loopGo_nil_rules_baseline (env : Nat → AttemptEnv) (intent : List Char)
    (src dst : String) (maxA : Nat) :
    ∀ rem attempt fb, ∀ e ∈ (loopGo env intent src dst maxA rem attempt fb []).trace,
      e.rulesAtBaseline = [] := by
  intro rem
  induction rem with
  | zero => intro attempt fb e he; simp [loopGo] at he
  | succ rem ih =>
    intro attempt fb e he
    cases hc : (env attempt).llmOutput.map sanitize with
    | none =>
      rw [loopGo_none env intent src dst maxA rem attempt fb [] hc] at he
      rcases List.mem_cons.mp he with h | h
      · subst h; rfl
      · exact ih (attempt + 1) fb e h
    | some cmd =>
      by_cases hce : cmd = []
      · subst hce
        rw [loopGo_empty env intent src dst maxA rem attempt fb [] hc] at he
        rcases List.mem_cons.mp he with h | h
        · subst h; rfl
        · exact ih (attempt + 1) fb e h
      · cases hcl : classifyOK intent (test_connectivity (env attempt).verifyPing).1 with
        | true =>
          rw [loopGo_deploy_success env intent src dst maxA rem attempt fb [] cmd hc hce hcl] at he
          simp only [List.mem_singleton] at he
          subst he; rfl
        | false =>
          rw [loopGo_deploy_fail env intent src dst maxA rem attempt fb [] cmd hc hce hcl] at he
          rcases List.mem_cons.mp he with h | h
          · subst h; rfl
          · exact ih (attempt + 1) _ e h

theorem loopGo_no_stale_rules (env : Nat → AttemptEnv) (intent : List Char)
    (src dst : String) (maxA : Nat) :
    ∀ (rem attempt : Nat) (fb : Option (List Char)) (rules : List (List Char))
      (i j : Nat) (ei ej : AttemptLog),
      ((loopGo env intent src dst maxA rem attempt fb rules).trace)[j]? = some ej →
      ej.deployed = true →
      ((loopGo env intent src dst maxA rem attempt fb rules).trace)[i]? = some ei →
      j < i → ei.rulesAtBaseline = [] := by
  intro rem
  induction rem with
  | zero => intro attempt fb rules i j ei ej hj; simp [loopGo] at hj
  | succ rem ih =>
    intro attempt fb rules i j ei ej hj hdep hi hlt
    cases hc : (env attempt).llmOutput.map sanitize with
    | none =>
      rw [loopGo_none env intent src dst maxA rem attempt fb rules hc] at hj hi
      cases j with
      | zero =>
        rw [List.getElem?_cons_zero] at hj
        injection hj with hj
        rw [← hj] at hdep
        simp at hdep
      | succ j =>
        cases i with
        | zero => omega
        | succ i =>
          rw [List.getElem?_cons_succ] at hj hi
          exact ih (attempt + 1) fb rules i j ei ej hj hdep hi (by omega)
    | some cmd =>
      by_cases hce : cmd = []
      · subst hce
        rw [loopGo_empty env intent src dst maxA rem attempt fb rules hc] at hj hi
        cases j with
        | zero =>
          rw [List.getElem?_cons_zero] at hj
          injection hj with hj
          rw [← hj] at hdep
          simp at hdep
        | succ j =>
          cases i with
          | zero => omega
          | succ i =>
            rw [List.getElem?_cons_succ] at hj hi
            exact ih (attempt + 1) fb rules i j ei ej hj hdep hi (by omega)
      · cases hcl : classifyOK intent (test_connectivity (env attempt).verifyPing).1 with
        | true =>
          rw [loopGo_deploy_success env intent src dst maxA rem attempt fb rules cmd hc hce hcl] at hi
          cases i with
          | zero => omega
          | succ i => rw [List.getElem?_cons_succ] at hi; simp at hi
        | false =>
          rw [loopGo_deploy_fail env intent src dst maxA rem attempt fb rules cmd hc hce hcl] at hi
          cases i with
          | zero => omega
          | succ i =>
            rw [List.getElem?_cons_succ] at hi
            exact loopGo_nil_rules_baseline env intent src dst maxA rem (attempt + 1) _ ei
              (List.getElem?_mem hi)

theorem loopGo_success_eq_classify (env : Nat → AttemptEnv) (intent : List Char)
    (src dst : String) (maxA : Nat) :
    ∀ rem attempt fb rules, ∀ e ∈ (loopGo env intent src dst maxA rem attempt fb rules).trace,
      e.deployed = true → e.success = classifyOK intent e.lossAfter := by
  intro rem
  induction rem with
  | zero => intro attempt fb rules e he; simp [loopGo] at he
  | succ rem ih =>
    intro attempt fb rules e he hdep
    cases hc : (env attempt).llmOutput.map sanitize with
    | none =>
      rw [loopGo_none env intent src dst maxA rem attempt fb rules hc] at he
      rcases List.mem_cons.mp he with h | h
      · subst h; simp at hdep
      · exact ih (attempt + 1) fb rules e h hdep
    | some cmd =>
      by_cases hce : cmd = []
      · subst hce
        rw [loopGo_empty env intent src dst maxA rem attempt fb rules hc] at he
        rcases List.mem_cons.mp he with h | h
        · subst h; simp at hdep
        · exact ih (attempt + 1) fb rules e h hdep
      · cases hcl : classifyOK intent (test_connectivity (env attempt).verifyPing).1 with
        | true =>
          rw [loopGo_deploy_success env intent src dst maxA rem attempt fb rules cmd hc hce hcl] at he
          simp only [List.mem_singleton] at he
          subst he
          simpa using hcl.symm
        | false =>
          rw [loopGo_deploy_fail env intent src dst maxA rem attempt fb rules cmd hc hce hcl] at he
          rcases List.mem_cons.mp he with h | h
          · subst h; simpa using hcl.symm
          · exact ih (attempt + 1) _ [] e h hdep

theorem attemptOK_false_cases (intent : List Char) (e : AttemptEnv) (cmd : List Char)
    (hc : e.llmOutput.map sanitize = some cmd) (hce : cmd ≠ [])
    (hOK : attemptOK intent e = false) :
    classifyOK intent (test_connectivity e.verifyPing).1 = false := by
  unfold attemptOK at hOK
  rw [hc] at hOK
  simpa [hce] using hOK

theorem attemptOK_true_cases (intent : List Char) (e : AttemptEnv)
    (hOK : attemptOK intent e = true) :
    ∃ cmd : List Char, e.llmOutput.map sanitize = some cmd ∧ cmd ≠ [] ∧
      classifyOK intent (test_connectivity e.verifyPing).1 = true := by
  unfold attemptOK at hOK
  cases hc : e.llmOutput.map sanitize with
  | none => rw [hc] at hOK; simp at hOK
  | some cmd =>
    rw [hc] at hOK
    by_cases hce : cmd = []
    · simp [hce] at hOK
    · simp only [hce, if_false, if_neg hce] at hOK
      exact ⟨cmd, rfl, hce, hOK⟩

theorem loopGo_all_fail (env : Nat → AttemptEnv) (intent : List Char)
    (src dst : String) (maxA : Nat) :
    ∀ (rem attempt : Nat) (fb : Option (List Char)) (rules : List (List Char)),
      (∀ i, attempt ≤ i → i < attempt + rem → attemptOK intent (env i) = false) →
      (loopGo env intent src dst maxA rem attempt fb rules).result = ⟨false, none, maxA⟩ ∧
      (loopGo env intent src dst maxA rem attempt fb rules).trace.length = rem := by
  intro rem
  induction rem with
  | zero => intro attempt fb rules _; exact ⟨rfl, rfl⟩
  | succ rem ih =>
    intro attempt fb rules h
    have hshift : ∀ i, attempt + 1 ≤ i → i < attempt + 1 + rem →
        attemptOK intent (env i) = false := by
      intro i h1 h2
      exact h i (by omega) (by omega)
    have h0 : attemptOK intent (env attempt) = false := h attempt (by omega) (by omega)
    cases hc : (env attempt).llmOutput.map sanitize with
    | none =>
      rw [loopGo_none env intent src dst maxA rem attempt fb rules hc]
      have := ih (attempt + 1) fb rules hshift
      exact ⟨this.1, by simp [this.2]⟩
    | some cmd =>
      by_cases hce : cmd = []
      · subst hce
        rw [loopGo_empty env intent src dst maxA rem attempt fb rules hc]
        have := ih (attempt + 1) fb rules hshift
        exact ⟨this.1, by simp [this.2]⟩
      · have hcl := attemptOK_false_cases intent (env attempt) cmd hc hce h0
        rw [loopGo_deploy_fail env intent src dst maxA rem attempt fb rules cmd hc hce hcl]
        have := ih (attempt + 1)
          (some (feedbackMsg src dst (test_connectivity (env attempt).verifyPing).1)) [] hshift
        exact ⟨this.1, by simp [this.2]⟩

theorem loopGo_first_success (env : Nat → AttemptEnv) (intent : List Char)
    (src dst : String) (maxA : Nat) :
    ∀ (rem attempt : Nat) (fb : Option (List Char)) (rules : List (List Char)) (k : Nat),
      attempt ≤ k → k < attempt + rem → attemptOK intent (env k) = true →
      (∀ j, attempt ≤ j → j < k → attemptOK intent (env j) = false) →
      (loopGo env intent src dst maxA rem attempt fb rules).result.success = true ∧
      (loopGo env intent src dst maxA rem attempt fb rules).result.attempts = k := by
  intro rem
  induction rem with
  | zero => intro attempt fb rules k h1 h2; omega
  | succ rem ih =>
    intro attempt fb rules k h1 h2 hOK hprev
    by_cases hk : k = attempt
    · subst hk
      obtain ⟨cmd, hc, hce, hcl⟩ := attemptOK_true_cases intent (env k) hOK
      rw [loopGo_deploy_success env intent src dst maxA rem k fb rules cmd hc hce hcl]
      exact ⟨rfl, rfl⟩
    · have h0 : attemptOK intent (env attempt) = false :=
        hprev attempt (by omega) (by omega)
      have hshift : ∀ j, attempt + 1 ≤ j → j < k → attemptOK intent (env j) = false := by
        intro j hj1 hj2
        exact hprev j (by omega) hj2
      cases hc : (env attempt).llmOutput.map sanitize with
      | none =>
        rw [loopGo_none env intent src dst maxA rem attempt fb rules hc]
        exact ih (attempt + 1) fb rules k (by omega) (by omega) hOK hshift
      | some cmd =>
        by_cases hce : cmd = []
        · subst hce
          rw [loopGo_empty env intent src dst maxA rem attempt fb rules hc]
          exact ih (attempt + 1) fb rules k (by omega) (by omega) hOK hshift
        · have hcl := attemptOK_false_cases intent (env attempt) cmd hc hce h0
          rw [loopGo_deploy_fail env intent src dst maxA rem attempt fb rules cmd hc hce hcl]
          exact ih (attempt + 1) _ [] k (by omega) (by omega) hOK hshift

theorem loopGo_head_fbIn (env : Nat → AttemptEnv) (intent : List Char)
    (src dst : String) (maxA : Nat) (rem attempt : Nat) (fb : Option (List Char))
    (rules : List (List Char)) (e : AttemptLog)
    (he : ((loopGo env intent src dst maxA rem attempt fb rules).trace)[0]? = some e) :
    e.feedbackIn = fb := by
  cases rem with
  | zero => simp [loopGo] at he
  | succ rem =>
    cases hc : (env attempt).llmOutput.map sanitize with
    | none =>
      rw [loopGo_none env intent src dst maxA rem attempt fb rules hc,
        List.getElem?_cons_zero] at he
      injection he with he
      rw [← he]
    | some cmd =>
      by_cases hce : cmd = []
      · subst hce
        rw [loopGo_empty env intent src dst maxA rem attempt fb rules hc,
          List.getElem?_cons_zero] at he
        injection he with he
        rw [← he]
      · cases hcl : classifyOK intent (test_connectivity (env attempt).verifyPing).1 with
        | true =>
          rw [loopGo_deploy_success env intent src dst maxA rem attempt fb rules cmd hc hce hcl,
            List.getElem?_cons_zero] at he
          injection he with he
          rw [← he]
        | false =>
          rw [loopGo_deploy_fail env intent src dst maxA rem attempt fb rules cmd hc hce hcl,
            List.getElem?_cons_zero] at he
          injection he with he
          rw [← he]

theorem loopGo_fbOut (env : Nat → AttemptEnv) (intent : List Char)
    (src dst : String) (maxA : Nat) :
    ∀ (rem attempt : Nat) (fb : Option (List Char)) (rules : List (List Char)),
      ∀ e ∈ (loopGo env intent src dst maxA rem attempt fb rules).trace,
        e.feedbackOut =
          if e.deployed = true ∧ e.success = false then
            some (feedbackMsg src dst e.lossAfter)
          else e.feedbackIn := by
  intro rem
  induction rem with
  | zero => intro attempt fb rules e he; simp [loopGo] at he
  | succ rem ih =>
    intro attempt fb rules e he
    cases hc : (env attempt).llmOutput.map sanitize with
    | none =>
      rw [loopGo_none env intent src dst maxA rem attempt fb rules hc] at he
      rcases List.mem_cons.mp he with h | h
      · subst h; simp
      · exact ih (attempt + 1) fb rules e h
    | some cmd =>
      by_cases hce : cmd = []
      · subst hce
        rw [loopGo_empty env intent src dst maxA rem attempt fb rules hc] at he
        rcases List.mem_cons.mp he with h | h
        · subst h; simp
        · exact ih (attempt + 1) fb rules e h
      · cases hcl : classifyOK intent (test_connectivity (env attempt).verifyPing).1 with
        | true =>
          rw [loopGo_deploy_success env intent src dst maxA rem attempt fb rules cmd hc hce hcl] at he
          simp only [List.mem_singleton] at he
          subst he; simp
        | false =>
          rw [loopGo_deploy_fail env intent src dst maxA rem attempt fb rules cmd hc hce hcl] at he
          rcases List.mem_cons.mp he with h | h
          · subst h; simp
          · exact ih (attempt + 1) _ [] e h

theorem loopGo_fb_chain (env : Nat → AttemptEnv) (intent : List Char)
    (src dst : String) (maxA : Nat) :
    ∀ (rem attempt : Nat) (fb : Option (List Char)) (rules : List (List Char))
      (i : Nat) (e e' : AttemptLog),
      ((loopGo env intent src dst maxA rem attempt fb rules).trace)[i]? = some e →
      ((loopGo env intent src dst maxA rem attempt fb rules).trace)[i + 1]? = some e' →
      e'.feedbackIn = e.feedbackOut := by
  intro rem
  induction rem with
  | zero => intro attempt fb rules i e e' he; simp [loopGo] at he
  | succ rem ih =>
    intro attempt fb rules i e e' he he'
    cases hc : (env attempt).llmOutput.map sanitize with
    | none =>
      rw [loopGo_none env intent src dst maxA rem attempt fb rules hc] at he he'
      cases i with
      | zero =>
        rw [List.getElem?_cons_zero] at he
        injection he with he
        rw [List.getElem?_cons_succ] at he'
        rw [← he]
        exact loopGo_head_fbIn env intent src dst maxA rem (attempt + 1) fb rules e' he'
      | succ i =>
        rw [List.getElem?_cons_succ] at he he'
        exact ih (attempt + 1) fb rules i e e' he he'
    | some cmd =>
      by_cases hce : cmd = []
      · subst hce
        rw [loopGo_empty env intent src dst maxA rem attempt fb rules hc] at he he'
        cases i with
        | zero =>
          rw [List.getElem?_cons_zero] at he
          injection he with he
          rw [List.getElem?_cons_succ] at he'
          rw [← he]
          exact loopGo_head_fbIn env intent src dst maxA rem (attempt + 1) fb rules e' he'
        | succ i =>
          rw [List.getElem?_cons_succ] at he he'
          exact ih (attempt + 1) fb rules i e e' he he'
      · cases hcl : classifyOK intent (test_connectivity (env attempt).verifyPing).1 with
        | true =>
          rw [loopGo_deploy_success env intent src dst maxA rem attempt fb rules cmd hc hce hcl] at he he'
          cases i with
          | zero => rw [List.getElem?_cons_succ] at he'; simp at he'
          | succ i => rw [List.getElem?_cons_succ] at he; simp at he
        | false =>
          rw [loopGo_deploy_fail env intent src dst maxA rem attempt fb rules cmd hc hce hcl] at he he'
          cases i with
          | zero =>
            rw [List.getElem?_cons_zero] at he
            injection he with he
            rw [List.getElem?_cons_succ] at he'
            rw [← he]
            exact loopGo_head_fbIn env intent src dst maxA rem (attempt + 1) _ [] e' he'
          | succ i =>
            rw [List.getElem?_cons_succ] at he he'
            exact ih (attempt + 1) _ [] i e e' he he'


/-- C1: the spec's classification policy (0% loss → Reachable, 100% loss →
Blocked, anything else → Partial/50) is broken in the code: every output
reporting 100% loss also contains the substring searched for by the 0%
branch, so `test_connectivity` classifies a fully blocked ping as
Reachable with loss 0, and its Blocked branch is unreachable — no output
whatsoever is ever classified BLOCKED. -/
theorem C1_full_loss_misclassified :
    test_connectivity ("3 packets transmitted, 0 received, 100% packet loss, time 2013ms".toList)
      = (0, "REACHABLE") ∧
    ∀ result : List Char, ((test_connectivity result).2 == "BLOCKED") = false := by
  constructor
  · rfl
  · intro result
    unfold test_connectivity
    by_cases h0 : hasSub zeroLoss result = true
    · rw [if_pos h0]; rfl
    · rw [if_neg h0]
      by_cases h100 : hasSub hundredLoss result = true
      · exact absurd (hasSub_zero_of_hundred result h100) h0
      · rw [if_neg h100]; rfl

/-- C2: in every `process_intent` run, a deployed attempt is recorded
successful exactly when the measured post-deployment loss is 100 (when the
intent text contains the block keyword) respectively 0 (otherwise). -/
theorem C2_success_iff_extreme_loss (env : Nat → AttemptEnv) (intent : List Char)
    (src dst : String) (maxA : Nat) (rules0 : List (List Char)) :
    ∀ e ∈ (process_intent env intent src dst maxA rules0).trace, e.deployed = true →
      ((hasSub blockKw (lowerL intent) = true → (e.success = true ↔ e.lossAfter = 100)) ∧
       (hasSub blockKw (lowerL intent) = false → (e.success = true ↔ e.lossAfter = 0))) := by
  intro e he hdep
  have hs := loopGo_success_eq_classify env intent src dst maxA maxA 1 none rules0 e he hdep
  constructor
  · intro hb
    rw [hs]
    unfold classifyOK
    rw [if_pos hb]
    simp
  · intro hb
    rw [hs]
    unfold classifyOK
    rw [if_neg (by simp [hb])]
    simp

/-- C2 witness: the first attempt of a concrete block-intent run that
measured Partial (50%) loss is recorded unsuccessful. -/
theorem C2_success_iff_extreme_loss_witness :
    wLogBlock.success = true ↔ wLogBlock.lossAfter = 100 :=
  (C2_success_iff_extreme_loss wEnvBlock wIntentBlock "h1" "h2" 1 [] wLogBlock
    (by decide) (by rfl)).1 (by rfl)

/-- C3: for any environment and any `maxAttempts ≥ 1`, if no attempt
satisfies the success predicate, `process_intent` runs exactly
`maxAttempts` attempts and returns failure with no final command and
`attempts = maxAttempts`; if some attempt satisfies it, the returned
result is successful and its attempt count is the 1-based index of the
first satisfying attempt. -/
theorem C3_attempt_budget (env : Nat → AttemptEnv) (intent : List Char) (src dst : String)
    (maxA : Nat) (rules0 : List (List Char)) (_hmax : 1 ≤ maxA) :
    ((∀ i, 1 ≤ i → i ≤ maxA → attemptOK intent (env i) = false) →
      (process_intent env intent src dst maxA rules0).result = ⟨false, none, maxA⟩ ∧
      (process_intent env intent src dst maxA rules0).trace.length = maxA) ∧
    (∀ k, 1 ≤ k → k ≤ maxA → attemptOK intent (env k) = true →
      (∀ j, 1 ≤ j → j < k → attemptOK intent (env j) = false) →
      (process_intent env intent src dst maxA rules0).result.success = true ∧
      (process_intent env intent src dst maxA rules0).result.attempts = k) := by
  constructor
  · intro h
    exact loopGo_all_fail env intent src dst maxA maxA 1 none rules0
      (fun i h1 h2 => h i h1 (by omega))
  · intro k hk1 hk2 hOK hprev
    exact loopGo_first_success env intent src dst maxA maxA 1 none rules0 k hk1 (by omega)
      hOK hprev

/-- C3 witness: with every LLM call failing and `maxAttempts = 3`, the
processor returns failure after exactly 3 attempts with no command. -/
theorem C3_attempt_budget_witness :
    (process_intent wEnvNone wIntentBlock "h1" "h2" 3 []).result = ⟨false, none, 3⟩ ∧
    (process_intent wEnvNone wIntentBlock "h1" "h2" 3 []).trace.length = 3 :=
  (C3_attempt_budget wEnvNone wIntentBlock "h1" "h2" 3 [] (by omega)).1
    (fun _ _ _ => rfl)

/-- C4: within one `process_intent` run, whenever some earlier attempt
deployed a rule, every later attempt starts (and hence takes its baseline
measurement) with an empty rule list on the source host: no rule deployed
by an earlier attempt is still installed. -/
theorem C4_no_stale_rules_at_baseline (env : Nat → AttemptEnv) (intent : List Char)
    (src dst : String) (maxA : Nat) (rules0 : List (List Char)) (i j : Nat)
    (ei ej : AttemptLog)
    (hj : ((process_intent env intent src dst maxA rules0).trace)[j]? = some ej)
    (hdep : ej.deployed = true)
    (hi : ((process_intent env intent src dst maxA rules0).trace)[i]? = some ei)
    (hlt : j < i) : ei.rulesAtBaseline = [] :=
  loopGo_no_stale_rules env intent src dst maxA maxA 1 none rules0 i j ei ej hj hdep hi hlt

/-- C4 witness: in a two-attempt run whose first attempt deployed and
failed, the second attempt's baseline rule list is empty. -/
theorem C4_no_stale_rules_at_baseline_witness : wLogBlock2.rulesAtBaseline = [] :=
  C4_no_stale_rules_at_baseline wEnvBlock wIntentBlock "h1" "h2" 2 [] 1 0
    wLogBlock2 wLogBlock (by rfl) (by rfl) (by rfl) (by omega)

/-- C5: when the generator call fails (`none`) or sanitization yields the
empty string, the current attempt is logged as skipped (no command, not
deployed), consumes one unit of the attempt budget, and the loop continues
with the same feedback and the same rule list — no deployment, no probe,
no feedback change. -/
theorem C5_skip_attempt (env : Nat → AttemptEnv) (intent : List Char) (src dst : String)
    (maxA rem attempt : Nat) (fb : Option (List Char)) (rules : List (List Char))
    (h : (env attempt).llmOutput.map sanitize = none ∨
         (env attempt).llmOutput.map sanitize = some []) :
    loopGo env intent src dst maxA (rem + 1) attempt fb rules =
      ⟨⟨attempt, none, false, rules, 0, 0, false, fb, fb⟩ ::
        (loopGo env intent src dst maxA rem (attempt + 1) fb rules).trace,
       (loopGo env intent src dst maxA rem (attempt + 1) fb rules).result,
       (loopGo env intent src dst maxA rem (attempt + 1) fb rules).rulesAfter⟩ := by
  rcases h with h | h
  · exact loopGo_none env intent src dst maxA rem attempt fb rules h
  · exact loopGo_empty env intent src dst maxA rem attempt fb rules h

/-- C5 witness: a concrete skipped attempt (LLM call failed). -/
theorem C5_skip_attempt_witness :
    loopGo wEnvNone wIntentBlock "h1" "h2" 1 1 1 none [] =
      ⟨⟨1, none, false, [], 0, 0, false, none, none⟩ ::
        (loopGo wEnvNone wIntentBlock "h1" "h2" 1 0 2 none []).trace,
       (loopGo wEnvNone wIntentBlock "h1" "h2" 1 0 2 none []).result,
       (loopGo wEnvNone wIntentBlock "h1" "h2" 1 0 2 none []).rulesAfter⟩ :=
  C5_skip_attempt wEnvNone wIntentBlock "h1" "h2" 1 0 1 none [] (Or.inl rfl)

/-- C6: `test_connectivity` is total — it always returns one of the three
(loss, classification) pairs — and any output carrying neither loss phrase
(in particular any probe-execution error output) is mapped to Partial/50. -/
theorem C6_probe_totality (result : List Char) :
    (test_connectivity result = (0, "REACHABLE") ∨
     test_connectivity result = (100, "BLOCKED") ∨
     test_connectivity result = (50, "PARTIAL")) ∧
    (hasSub zeroLoss result = false → hasSub hundredLoss result = false →
      test_connectivity result = (50, "PARTIAL")) := by
  constructor
  · unfold test_connectivity
    by_cases h0 : hasSub zeroLoss result = true
    · rw [if_pos h0]; left; rfl
    · rw [if_neg h0]
      by_cases h100 : hasSub hundredLoss result = true
      · rw [if_pos h100]; right; left; rfl
      · rw [if_neg h100]; right; right; rfl
  · intro h0 h100
    unfold test_connectivity
    rw [if_neg (by simp [h0]), if_neg (by simp [h100])]

/-- C6 witness: a probe-execution error output is classified Partial/50. -/
theorem C6_probe_totality_witness :
    test_connectivity ("ping: connect: Network is unreachable".toList) = (50, "PARTIAL") :=
  (C6_probe_totality ("ping: connect: Network is unreachable".toList)).2
    (by rfl) (by rfl)

/-- C7: `sanitize` is a total function whose output never carries leading
or trailing whitespace nor leading or trailing quote characters; on a
fenced completion with an adjacent dialect token it recovers the bare
command, and in the worst case it returns the empty string. -/
theorem C7_sanitize_contract :
    (∀ raw : List Char, noEdgeSpace (sanitize raw) = true) ∧
    (∀ raw : List Char, noEdgeQuote (sanitize raw) = true) ∧
    sanitize ("```bash\niptables -I OUTPUT -d 10.0.0.2 -j DROP\n```".toList) =
      "iptables -I OUTPUT -d 10.0.0.2 -j DROP".toList ∧
    sanitize (" \"iptables -A OUTPUT -d 10.0.0.2 -j DROP\" ".toList) =
      "iptables -A OUTPUT -d 10.0.0.2 -j DROP".toList ∧
    sanitize ("```".toList) = [] :=
  ⟨sanitize_noEdgeSpace, sanitize_noEdgeQuote, rfl, rfl, rfl⟩

/-- C8: feedback handling in `process_intent`: an attempt's outgoing
feedback is the fresh diagnostic message (naming the endpoint pair and the
measured loss) exactly when the attempt deployed and failed, and is the
incoming feedback unchanged otherwise; consecutive attempts chain feedback
(each attempt generates with the previous attempt's outgoing feedback);
and the first attempt starts with no feedback. -/
theorem C8_feedback_replacement (env : Nat → AttemptEnv) (intent : List Char)
    (src dst : String) (maxA : Nat) (rules0 : List (List Char)) :
    (∀ e ∈ (process_intent env intent src dst maxA rules0).trace,
      e.feedbackOut = if e.deployed = true ∧ e.success = false then
        some (feedbackMsg src dst e.lossAfter) else e.feedbackIn) ∧
    (∀ (i : Nat) (e e' : AttemptLog),
      ((process_intent env intent src dst maxA rules0).trace)[i]? = some e →
      ((process_intent env intent src dst maxA rules0).trace)[i + 1]? = some e' →
      e'.feedbackIn = e.feedbackOut) ∧
    (∀ e : AttemptLog,
      ((process_intent env intent src dst maxA rules0).trace)[0]? = some e →
      e.feedbackIn = none) := by
  refine ⟨?_, ?_, ?_⟩
  · exact loopGo_fbOut env intent src dst maxA maxA 1 none rules0
  · exact loopGo_fb_chain env intent src dst maxA maxA 1 none rules0
  · exact fun e he => loopGo_head_fbIn env intent src dst maxA maxA 1 none rules0 e he

/-- C8 witness: a concrete deployed-and-failed attempt replaces the
feedback with the diagnostic naming the measured 50% loss. -/
theorem C8_feedback_replacement_witness :
    wLogBlock.feedbackOut = if wLogBlock.deployed = true ∧ wLogBlock.success = false then
      some (feedbackMsg "h1" "h2" wLogBlock.lossAfter) else wLogBlock.feedbackIn :=
  (C8_feedback_replacement wEnvBlock wIntentBlock "h1" "h2" 1 []).1 wLogBlock (by decide)

/-- C9: the reported success rate is the fraction of successful results
expressed as a percentage, 0 for an empty batch, and 50 for a two-intent
batch with one success and one failure. -/
theorem C9_success_rate_spec :
    (∀ results : List IntentResult, results ≠ [] →
      success_rate results = ((success_count results : ℚ) / (results.length : ℚ)) * 100) ∧
    success_rate [] = 0 ∧
    (∀ r1 r2 : IntentResult, r1.success = true → r2.success = false →
      success_rate [r1, r2] = 50) := by
  refine ⟨?_, ?_, ?_⟩
  · intro results h
    rw [success_rate, if_pos h]
  · rfl
  · intro r1 r2 h1 h2
    rw [success_rate, if_pos (by simp)]
    rw [success_count]
    simp only [List.filter, h1, h2]
    norm_num

/-- C9 witness: one success and one failure give a 50% success rate. -/
theorem C9_success_rate_spec_witness :
    success_rate [⟨true, none, 1⟩, ⟨false, none, 3⟩] = 50 :=
  C9_success_rate_spec.2.2 ⟨true, none, 1⟩ ⟨false, none, 3⟩ rfl rfl

/-- C10: quote removal in `sanitize` is global: no sanitized command
contains any double- or single-quote character anywhere, and interior
quotes (for example around a quoted argument) are deleted, not only
leading and trailing ones. -/
theorem C10_quote_removal_global :
    (∀ raw : List Char, (sanitize raw).all (fun c => !pyIsQuote c) = true) ∧
    sanitize ("iptables -I OUTPUT -m string --string \"secret\" -j DROP".toList) =
      "iptables -I OUTPUT -m string --string secret -j DROP".toList :=
  ⟨sanitize_all_quote_free, rfl⟩
